import Mathlib

/-!
Shallow embedding of the SegmentAccountant from src/src/log/segment_accountant.rs.

Conventions of the embedding:
* Machine integers (LogID, Lsn, PageID, usize) are modelled as `Nat`; all the
  arithmetic the source performs on them (division by the segment size,
  multiplication, addition, modulo) stays in the non-negative range.
* `HashSet` fields (`pids`, `to_clean`, `pending_clean`) are modelled as
  duplicate-free `List Nat` values; insertion is insert-if-absent.  Iteration
  order of a Rust `HashSet` is unspecified; the list order plays that role.
* `VecDeque` (the free list) is a `List Nat` whose head is the front.
* `BTreeMap<Lsn, LogID>` (`ordering`) is an association list sorted strictly
  by key; sortedness is the representation invariant `ordInv`.
* The f64 occupancy comparison `pids.len() as f64 / pids_len as f64 <= t` is
  modelled exactly over `Rat`, with the zero-denominator cases mapped to
  `false`: IEEE gives `inf <= t` and `NaN <= t` both false for a threshold
  `t` in (0, 1].
* Rust panics (out-of-bounds indexing, `Option::unwrap` on `None`, failed
  `assert!`) are modelled with `Option`: `none` is a panic.
* The epoch-deferred `SegmentDropper` push onto the back of the free list is
  modelled by a `pendingRelease` queue plus an explicit `release` step that
  performs the delayed `push_back`; the deferral itself is the only
  concurrency in the source and this sequential rendering keeps its essential
  ordering (the enqueue happens strictly after `ensure_safe_free_distance`).
-/

set_option maxRecDepth 10000

namespace SegAcc

/-- A single log record as yielded by the segment reader. Modelled from the
spec: the record stream contract (`Zeroed`, `Flush`, `Corrupted`, section 6)
is provided by code outside src/. The payload reference of `Flush` is
irrelevant to the accountant and omitted. -/
inductive LogRead where
  | zeroed (len : Nat)
  | flush (lsn : Nat) (len : Nat)
  | corrupted (len : Nat)
deriving DecidableEq, Repr

/-- Result of reading one segment from disk. Modelled from the spec: the
`read_segment(offset) -> {lsn, position, read_offset, iterator of records}`
contract of section 6 lives outside src/. -/
structure SegmentRead where
  lsn : Nat
  position : Nat
  read_offset : Nat
  records : List LogRead
deriving DecidableEq, Repr

/-- Configuration. Modelled from the spec: the Config type and its getters
(`io_buf_size`, `io_bufs`, `segment_cleanup_threshold`, `min_free_segments`,
`read_segment`, the constant `HEADER_LEN`) are outside src/ (section 6).
`disk` backs `read_segment`, one entry per segment index. -/
structure Config where
  io_buf_size : Nat
  io_bufs : Nat
  segment_cleanup_threshold : Rat
  min_free_segments : Nat
  header_len : Nat
  disk : List (Option SegmentRead)
deriving DecidableEq, Repr

/-- The segment reader: `config.read_segment(offset)`, an `Err` result being
`none`. -/
def Config.read_segment (c : Config) (offset : Nat) : Option SegmentRead :=
  c.disk.getD (offset / c.io_buf_size) none

/-- Per-segment record, from `struct Segment` in the source. -/
structure Segment where
  pids : List Nat
  pids_len : Nat
  lsn : Option Nat
  freed : Bool
deriving DecidableEq, Repr

instance : Inhabited Segment := ⟨⟨[], 0, none, false⟩⟩

/-- The accountant state, from `struct SegmentAccountant` in the source.
`pendingRelease` holds offsets whose deferred `SegmentDropper` push onto the
back of `free` has been scheduled but has not run yet. -/
structure SA where
  tip : Nat
  max_lsn : Nat
  initial_offset : Nat
  segments : List Segment
  to_clean : List Nat
  pending_clean : List Nat
  free : List Nat
  pendingRelease : List Nat
  config : Config
  pause_rewriting : Bool
  ordering : List (Nat × Nat)
deriving DecidableEq, Repr

/-- The `SegmentAccountant::default()` state (before recovery). -/
def initSA (c : Config) : SA :=
  ⟨0, 0, 0, [], [], [], [], [], c, false, []⟩

/-- HashSet-style insert on a duplicate-free list. -/
def insertElem (x : Nat) (l : List Nat) : List Nat :=
  if x ∈ l then l else x :: l

/-- Lookup in the association list modelling `ordering`. -/
def lookupKey (k : Nat) : List (Nat × Nat) → Option Nat
  | [] => none
  | p :: rest => if p.1 = k then some p.2 else lookupKey k rest

/-- Sorted insert (replacing an equal key) in the association list modelling
`BTreeMap::insert`. -/
def insertKey (k v : Nat) : List (Nat × Nat) → List (Nat × Nat)
  | [] => [(k, v)]
  | p :: rest =>
    if k < p.1 then (k, v) :: p :: rest
    else if k = p.1 then (k, v) :: rest
    else p :: insertKey k v rest

/-- Key removal in the association list modelling `BTreeMap::remove`. -/
def eraseKey (k : Nat) : List (Nat × Nat) → List (Nat × Nat)
  | [] => []
  | p :: rest => if p.1 = k then rest else p :: eraseKey k rest

/-- Representation invariant of `ordering`: strictly ascending keys (what a
`BTreeMap` iteration delivers). -/
def ordInv (s : SA) : Prop :=
  List.Pairwise (fun a b : Nat × Nat => a.1 < b.1) s.ordering

instance (s : SA) : Decidable (ordInv s) := by
  unfold ordInv; infer_instance

/-- The source comparison `npids as f64 / pidsLen as f64 <= t`, modelled
exactly over ℚ. When `pidsLen = 0` the IEEE quotient is `inf` (or `NaN` when
`npids = 0` too) and the comparison is false either way. -/
def thresholdRatio (npids pidsLen : Nat) (t : Rat) : Prop :=
  pidsLen ≠ 0 ∧ (npids : Rat) / (pidsLen : Rat) ≤ t

/-- Executable form of `thresholdRatio`, by cross-multiplication with the
numerator and denominator of the threshold (ℚ arithmetic does not reduce
under `decide`; integer arithmetic does). `thresholdOk_iff` below proves it
coincides with the ratio comparison written exactly as in the source. -/
def thresholdOk (npids pidsLen : Nat) (t : Rat) : Bool :=
  pidsLen != 0 && decide ((npids : Int) * t.den ≤ t.num * (pidsLen : Int))

/-- The executable threshold test agrees with the source's ratio comparison. -/
theorem thresholdOk_iff (npids pidsLen : Nat) (t : Rat) :
    thresholdOk npids pidsLen t = true ↔ thresholdRatio npids pidsLen t := by
  unfold thresholdOk thresholdRatio
  rcases Nat.eq_zero_or_pos pidsLen with h | h
  · subst h; simp
  · have hp : (0 : Rat) < (pidsLen : Rat) := by positivity
    have hd : (0 : Rat) < (t.den : Rat) := by
      exact_mod_cast Nat.pos_of_ne_zero t.den_nz
    have key : ((npids : Rat) / (pidsLen : Rat) ≤ t) ↔
        ((npids : Int) * t.den ≤ t.num * (pidsLen : Int)) := by
      rw [div_le_iff₀ hp, ← mul_le_mul_right hd, mul_right_comm, Rat.mul_den_eq_num]
      constructor
      · intro hh; exact_mod_cast hh
      · intro hh; exact_mod_cast hh
    simp [key, Nat.ne_of_gt h]

/-- The `self.segments.resize(idx + 1, Segment::default())` grow-only resize
(the source only resizes when `len <= idx`). -/
def resizeSegs (segs : List Segment) (idx : Nat) : List Segment :=
  if segs.length ≤ idx then segs ++ List.replicate (idx + 1 - segs.length) default
  else segs

/-- From `SegmentAccountant::bump_tip`. -/
def bumpTip (s : SA) : Nat × SA :=
  (s.tip, { s with tip := s.tip + s.config.io_buf_size })

/-- The `while free.len() < io_bufs { push_front(bump_tip()) }` loop of
`ensure_safe_free_distance`, with structural fuel. Each iteration grows the
list by one, so `iob` units of fuel always reach the loop's exit condition:
the fuel-exhausted branch coincides with the normal exit. -/
def ensureLoop (sz iob : Nat) : Nat → Nat → List Nat → Nat × List Nat
  | 0, tip, free => (tip, free)
  | fuel + 1, tip, free =>
    if free.length < iob then ensureLoop sz iob fuel (tip + sz) (tip :: free)
    else (tip, free)

/-- From `SegmentAccountant::ensure_safe_free_distance`. -/
def ensureSafeFreeDistance (s : SA) : SA :=
  let r := ensureLoop s.config.io_buf_size s.config.io_bufs s.config.io_bufs s.tip s.free
  { s with tip := r.1, free := r.2 }

/-- The `if pids_len == 0 { pids_len = pids.len() }` snapshot step of
`set`/`freed`. -/
def freezeLen (seg : Segment) : Segment :=
  if seg.pids_len = 0 then { seg with pids_len := seg.pids.length } else seg

/-- The `if lsn.is_none() { lsn = Some(lsn) }` adoption step of
`set`/`merged`. -/
def adoptLsn (seg : Segment) (lsn : Nat) : Segment :=
  if seg.lsn.isNone then { seg with lsn := some lsn } else seg

/-- The shared tail of the `old_lid` loop bodies of `set` and `freed`: freeze
`pids_len` if zero, remove `pid`, then either transition the segment to freed
(removing it from `to_clean`, ensuring the safe free distance and scheduling
the deferred release) or insert it into `to_clean` when the occupancy ratio
passes the cleanup threshold. Precondition of the callers: `idx` is in
bounds and the stale-LSN check has already passed. -/
def shrink (pid idx : Nat) (s : SA) : SA :=
  let seg0 := s.segments.getD idx default
  let seg1 := freezeLen seg0
  let seg2 := { seg1 with pids := seg1.pids.erase pid }
  let start := idx * s.config.io_buf_size
  if seg2.pids.isEmpty && !seg2.freed then
    let s1 := { s with segments := s.segments.set idx { seg2 with freed := true },
                       to_clean := s.to_clean.erase start }
    let s2 := ensureSafeFreeDistance s1
    { s2 with pendingRelease := s2.pendingRelease ++ [start] }
  else if thresholdOk seg2.pids.length seg2.pids_len s.config.segment_cleanup_threshold then
    { s with segments := s.segments.set idx seg2,
             to_clean := insertElem start s.to_clean }
  else
    { s with segments := s.segments.set idx seg2 }

/-- From `SegmentAccountant::merged`. -/
def merged (s : SA) (pid lid lsn : Nat) : SA :=
  let s1 := { s with pending_clean := s.pending_clean.erase pid }
  let idx := lid / s1.config.io_buf_size
  let segs := resizeSegs s1.segments idx
  let seg0 := segs.getD idx default
  let seg1 := adoptLsn seg0 lsn
  if lsn < seg1.lsn.getD 0 then
    { s1 with segments := segs.set idx seg1 }
  else
    { s1 with segments := segs.set idx { seg1 with pids := insertElem pid seg1.pids } }

/-- One iteration of the `old_lid` loop of `SegmentAccountant::set`. -/
def setOne (pid new_idx lsn : Nat) (s : SA) (old_lid : Nat) : SA :=
  let idx := old_lid / s.config.io_buf_size
  if new_idx = idx then s
  else
    let segs := resizeSegs s.segments idx
    let seg0 := segs.getD idx default
    let seg1 := adoptLsn seg0 lsn
    if lsn < seg1.lsn.getD 0 then
      { s with segments := segs.set idx seg1 }
    else
      shrink pid idx { s with segments := segs.set idx seg1 }

/-- From `SegmentAccountant::set`. -/
def set (s : SA) (pid : Nat) (old_lids : List Nat) (new_lid lsn : Nat) : SA :=
  let s1 := { s with pending_clean := s.pending_clean.erase pid }
  let new_idx := new_lid / s1.config.io_buf_size
  let s2 := old_lids.foldl (setOne pid new_idx lsn) s1
  merged s2 pid new_lid lsn

/-- One iteration of the `old_lid` loop of `SegmentAccountant::freed`.
Unlike `setOne` there is no resize and no LSN adoption: `self.segments[idx]`
panics when `idx` is out of bounds and `lsn.unwrap()` panics on `None`;
both panics are `none`. -/
def freedOne (pid lsn : Nat) (s : SA) (old_lid : Nat) : Option SA :=
  let idx := old_lid / s.config.io_buf_size
  match s.segments[idx]? with
  | none => none
  | some seg =>
    match seg.lsn with
    | none => none
    | some l => if lsn < l then some s else some (shrink pid idx s)

/-- The `old_lid` loop of `SegmentAccountant::freed`. -/
def freedLoop (pid lsn : Nat) : SA → List Nat → Option SA
  | s, [] => some s
  | s, lid :: rest =>
    match freedOne pid lsn s lid with
    | none => none
    | some s1 => freedLoop pid lsn s1 rest

/-- From `SegmentAccountant::freed`. -/
def freed (s : SA) (pid : Nat) (old_lids : List Nat) (lsn : Nat) : Option SA :=
  freedLoop pid lsn { s with pending_clean := s.pending_clean.erase pid } old_lids

/-- The `let lid = if self.pause_rewriting { bump_tip() } else { pop_front
or bump_tip }` block of `next`. -/
def popLid (s : SA) : Nat × SA :=
  if s.pause_rewriting then bumpTip s
  else
    match s.free with
    | [] => bumpTip s
    | l :: rest => (l, { s with free := rest })

/-- From `SegmentAccountant::next`. `none` is the assertion failure on an
unaligned `lsn` or on a non-empty `pids` set at allocation time. -/
def next (s : SA) (lsn : Nat) : Option (Nat × SA) :=
  if lsn % s.config.io_buf_size != 0 then none
  else
    let p := popLid s
    let lid := p.1
    let s1 := p.2
    let idx := lid / s1.config.io_buf_size
    let segs := resizeSegs s1.segments idx
    let seg0 := segs.getD idx default
    if !seg0.pids.isEmpty then none
    else
      let ord :=
        match seg0.lsn with
        | some old => eraseKey old s1.ordering
        | none => s1.ordering
      some (lid, { s1 with
        segments := segs.set idx { seg0 with lsn := some lsn, freed := false, pids_len := 0 },
        ordering := insertKey lsn lid ord })

/-- The inner `for pid in &segment.pids` search of `clean`: first pid not in
`pending_clean`. -/
def findPid (pending : List Nat) : List Nat → Option Nat
  | [] => none
  | q :: qs => if q ∈ pending then findPid pending qs else some q

/-- The `for lid in &self.to_clean` loop of `clean`. `none` is the panic of
`self.segments[idx]` on an out-of-bounds index. -/
def cleanLoop (s : SA) : List Nat → Option (Option Nat × SA)
  | [] => some (none, s)
  | lid :: rest =>
    let idx := lid / s.config.io_buf_size
    match s.segments[idx]? with
    | none => none
    | some seg =>
      match findPid s.pending_clean seg.pids with
      | some p => some (some p, { s with pending_clean := insertElem p s.pending_clean })
      | none => cleanLoop s rest

/-- From `SegmentAccountant::clean`: the first component of the result is the
returned `Option<PageID>`, the second the post-state. -/
def clean (s : SA) : Option (Option Nat × SA) :=
  if s.free.length > s.config.min_free_segments || s.to_clean.isEmpty then some (none, s)
  else cleanLoop s s.to_clean

/-- From `SegmentAccountant::segment_snapshot_iter_from`. The source clones
`ordering` and filters it; in this sequential embedding the returned list is
by construction a snapshot of the call-time `ordering` — later mutations of
the state cannot affect a value already computed. -/
def segment_snapshot_iter_from (s : SA) (lsn : Nat) : List (Nat × Nat) :=
  let segment_len := s.config.io_buf_size
  let normalized_lsn := lsn / segment_len * segment_len
  s.ordering.filter (fun p => normalized_lsn ≤ p.1)

/-- From `SegmentAccountant::is_recovered`. -/
def is_recovered (s : SA) : Bool :=
  !s.segments.isEmpty

/-- From `SegmentAccountant::recover`. -/
def recover (s : SA) (lsn lid : Nat) : SA :=
  let idx := lid / s.config.io_buf_size
  let segs := resizeSegs s.segments idx
  let seg0 := segs.getD idx default
  { s with segments := segs.set idx { seg0 with lsn := some lsn },
           ordering := insertKey lsn lid s.ordering }

/-- The linear header walk of `scan_segment_lsns`: read segments at
`cursor = 0, sz, 2·sz, …` until the first failed read, recovering each
`(lsn, position)` pair, advancing `tip` and tracking the maximal header LSN.
The fuel bounds the walk by the disk size (the walk stops at the first index
off the end of the disk). -/
def scanLoop : Nat → Nat → SA → SA
  | 0, _, s => s
  | fuel + 1, cursor, s =>
    match s.config.read_segment cursor with
    | none => s
    | some seg =>
      let s1 := recover s seg.lsn seg.position
      let cursor1 := cursor + s.config.io_buf_size
      let s2 := { s1 with
        tip := cursor1,
        max_lsn := if seg.lsn > s1.max_lsn then seg.lsn else s1.max_lsn }
      scanLoop fuel cursor1 s2

/-- The record walk inside the maximal-LSN segment: advance `max_lsn` over
in-order `Flush` records, skip `Zeroed` gaps, stop at `Corrupted` or at an
out-of-order `Flush`. -/
def tailLoop (hlen : Nat) : List LogRead → Nat → Nat
  | [], m => m
  | r :: rs, m =>
    match r with
    | LogRead.zeroed _ => tailLoop hlen rs m
    | LogRead.flush lsn len =>
      let t := lsn + hlen + len
      if t > m then tailLoop hlen rs t else m
    | LogRead.corrupted _ => m

/-- The tail phase of `scan_segment_lsns`: locate the segment of the maximal
header LSN, walk its records, compute `initial_offset`, and push the tail
offset onto the free list when the record iterator yielded nothing
(`empty_tip` in the source stays true exactly when `read_next` never returned
an item — also when the re-read of the tail segment fails). -/
def tailPhase (s : SA) : SA :=
  match lookupKey s.max_lsn s.ordering with
  | none => s
  | some max_cursor =>
    match s.config.read_segment max_cursor with
    | none => { s with free := s.free ++ [max_cursor] }
    | some seg =>
      let m0 := s.max_lsn + seg.read_offset
      let m1 := tailLoop s.config.header_len seg.records m0
      let overhang := m1 % s.config.io_buf_size
      let s1 := { s with max_lsn := m1, initial_offset := seg.position + overhang }
      if seg.records.isEmpty then { s1 with free := s1.free ++ [max_cursor] } else s1

/-- From `SegmentAccountant::scan_segment_lsns` (runs only when not yet
recovered, i.e. the segments array is empty). -/
def scan_segment_lsns (s : SA) : SA :=
  if is_recovered s then s
  else tailPhase (scanLoop (s.config.disk.length + 1) 0 s)

/-- From `SegmentAccountant::new`. -/
def newSA (c : Config) : SA :=
  scan_segment_lsns (initSA c)

/-- The indexed loop of `initialize_from_segments`. -/
def initLoop : Nat → Nat → SA → SA
  | 0, _, s => s
  | fuel + 1, idx, s =>
    if idx < s.segments.length then
      let seg := s.segments.getD idx default
      let start := idx * s.config.io_buf_size
      let s1 :=
        if seg.pids.isEmpty then
          { s with segments := s.segments.set idx { seg with freed := true },
                   free := s.free ++ [start] }
        else if thresholdOk seg.pids.length seg.pids_len s.config.segment_cleanup_threshold then
          { s with to_clean := insertElem start s.to_clean }
        else s
      initLoop fuel (idx + 1) s1
    else s

/-- From `SegmentAccountant::initialize_from_segments`. -/
def initFromSegments (s : SA) (given : List Segment) : SA :=
  initLoop given.length 0 { s with segments := given }

/-- The destructor of one deferred `SegmentDropper`: the delayed
`push_back` onto the free list, run when the epoch reclamation fires. -/
def release (s : SA) : SA :=
  match s.pendingRelease with
  | [] => s
  | l :: rest => { s with pendingRelease := rest, free := s.free ++ [l] }

/-- The accountant's external operations, for reasoning about operation
sequences. `releaseOp` is the epoch-deferred free-list enqueue firing. -/
inductive Op where
  | mergedOp (pid lid lsn : Nat)
  | setOp (pid : Nat) (old_lids : List Nat) (new_lid lsn : Nat)
  | freedOp (pid : Nat) (old_lids : List Nat) (lsn : Nat)
  | nextOp (lsn : Nat)
  | cleanOp
  | pauseOp
  | resumeOp
  | releaseOp
  | initOp (segs : List Segment)
deriving DecidableEq, Repr

/-- One operation step; `none` is a panic. -/
def step (s : SA) : Op → Option SA
  | .mergedOp pid lid lsn => some (merged s pid lid lsn)
  | .setOp pid ol nl lsn => some (set s pid ol nl lsn)
  | .freedOp pid ol lsn => freed s pid ol lsn
  | .nextOp lsn => (next s lsn).map Prod.snd
  | .cleanOp => (clean s).map Prod.snd
  | .pauseOp => some { s with pause_rewriting := true }
  | .resumeOp => some { s with pause_rewriting := false }
  | .releaseOp => some (release s)
  | .initOp segs => some (initFromSegments s segs)

/-- Run a sequence of operations. -/
def run (s : SA) : List Op → Option SA
  | [] => some s
  | op :: ops =>
    match step s op with
    | none => none
    | some s1 => run s1 ops

/-- The configuration of the `basic_workflow` unit test in the source:
`io_buf_size = 1`, `io_bufs = 2`, `segment_cleanup_threshold = 0.2`,
`min_free_segments = 3` (the threshold 1/5 is written with an explicit
constructor so that it reduces under `decide`). -/
def cfgT : Config :=
  ⟨1, 2, ⟨1, 5, by decide, by decide⟩, 3, 7, []⟩

/-- The operation trace of the `basic_workflow` unit test in the source
(with the strictly increasing LSN counter made explicit). -/
def opsBW : List Op :=
  [Op.nextOp 1, Op.nextOp 2, Op.nextOp 3,
   Op.mergedOp 0 0 4,
   Op.setOp 0 [0] 0 5, Op.cleanOp,
   Op.setOp 0 [0] 0 6, Op.cleanOp,
   Op.setOp 0 [0] 0 7, Op.cleanOp,
   Op.setOp 0 [0] 0 8, Op.cleanOp,
   Op.nextOp 9,
   Op.setOp 0 [0] 1 10, Op.cleanOp,
   Op.mergedOp 1 1 11, Op.mergedOp 2 1 12, Op.mergedOp 3 1 13,
   Op.mergedOp 4 1 14, Op.mergedOp 5 1 15,
   Op.setOp 0 [1] 2 16, Op.setOp 2 [1] 2 17, Op.setOp 3 [1] 2 18,
   Op.setOp 4 [1] 2 19, Op.setOp 5 [1] 2 20]

/-- The `old_lid`'s segment record has a recorded LSN strictly newer than the
incoming one, the premise of the stale-race no-op behavior of
`merged`/`set`/`freed`. -/
def staleAt (s : SA) (lid lsn : Nat) : Prop :=
  lid / s.config.io_buf_size < s.segments.length ∧
  ∃ l, (s.segments.getD (lid / s.config.io_buf_size) default).lsn = some l ∧ lsn < l

instance staleAtDec (s : SA) (lid lsn : Nat) : Decidable (staleAt s lid lsn) :=
  match h : (s.segments.getD (lid / s.config.io_buf_size) default).lsn with
  | none => isFalse (fun ⟨_, _, hl, _⟩ => by rw [h] at hl; cases hl)
  | some l =>
    if h2 : lid / s.config.io_buf_size < s.segments.length ∧ lsn < l then
      isTrue ⟨h2.1, l, h, h2.2⟩
    else
      isFalse (fun ⟨ha, l2, hl2, hb⟩ => by
        rw [h] at hl2; cases hl2; exact h2 ⟨ha, hb⟩)

/-- The state that every stale-race call leaves behind: only `pid` has been
removed from `pending_clean`. -/
def pcErased (s : SA) (pid : Nat) : SA :=
  { s with pending_clean := s.pending_clean.erase pid }

/-- An operation whose `pid` argument is the given page (the calls that clear
`pending_clean[pid]`). -/
def involvesPid (p : Nat) : Op → Prop
  | .mergedOp pid _ _ => pid = p
  | .setOp pid _ _ _ => pid = p
  | .freedOp pid _ _ => pid = p
  | _ => False

instance involvesPidDec (p : Nat) (op : Op) : Decidable (involvesPid p op) := by
  cases op <;> simp only [involvesPid] <;> infer_instance

/-- Whether a record stream contains a valid (`Flush`) record. -/
def hasValidRecord (rs : List LogRead) : Bool :=
  rs.any fun r =>
    match r with
    | LogRead.flush _ _ => true
    | _ => false

/-- State reached by replaying the unit-test trace from a fresh accountant
(empty disk). -/
def sBW : SA := (run (newSA cfgT) opsBW).getD (newSA cfgT)

/-- State after the `clean` call of the replay (which returns page 1). -/
def sBW1 : SA := ((clean sBW).getD (none, sBW)).2

/-- State after a further `merged(9, second, 100)` call. -/
def sBW2 : SA := (run sBW1 [Op.mergedOp 9 1 100]).getD sBW1

/-- The unit-test trace followed by the `clean` call that returns page 1
(leaving `pending_clean = {1}`). -/
def opsC2 : List Op := opsBW ++ [Op.cleanOp]

def sC2 : SA := (run (newSA cfgT) opsC2).getD (newSA cfgT)

/-- A trace that first drives segment 0 into `to_clean` (occupancy 1/6) and
then grows its live set again with `merged(7, ...)` (occupancy 2/6 > 1/5). -/
def opsC3 : List Op :=
  [Op.nextOp 1, Op.mergedOp 1 0 2, Op.mergedOp 2 0 3, Op.mergedOp 3 0 4,
   Op.mergedOp 4 0 5, Op.mergedOp 5 0 6, Op.mergedOp 6 0 7,
   Op.setOp 2 [0] 1 8, Op.setOp 3 [0] 1 9, Op.setOp 4 [0] 1 10,
   Op.setOp 5 [0] 1 11, Op.setOp 6 [0] 1 12,
   Op.mergedOp 7 0 13]

def sC3 : SA := (run (newSA cfgT) opsC3).getD (newSA cfgT)

/-- A trace that freezes segment 0's `pids_len` at 2 and then grows `pids`
to 3 via further `merged` calls. -/
def opsC4 : List Op :=
  [Op.nextOp 1, Op.mergedOp 1 0 2, Op.mergedOp 2 0 3,
   Op.setOp 1 [0] 1 4, Op.mergedOp 3 0 5, Op.mergedOp 4 0 6]

def sC4 : SA := (run (newSA cfgT) opsC4).getD (newSA cfgT)

/-- A one-segment state about to take the freed transition in `shrink`. -/
def sW1 : SA := { newSA cfgT with segments := [⟨[7], 1, some 3, false⟩] }

/-- A one-segment state whose occupancy drops to 1/6 on the next removal. -/
def sW3 : SA := { newSA cfgT with segments := [⟨[1, 6], 6, some 5, false⟩] }

/-- A one-segment state whose `pids_len` is still unmeasured (zero). -/
def sW4 : SA := { newSA cfgT with segments := [⟨[1, 2], 0, some 5, false⟩] }

/-- A state whose free list already exceeds `min_free_segments = 3`. -/
def sW5 : SA := { newSA cfgT with free := [10, 11, 12, 13] }

/-- A configuration with segment size 10 and an empty disk. -/
def cfgW7 : Config := ⟨10, 2, ⟨1, 5, by decide, by decide⟩, 3, 7, []⟩

/-- A recycled free segment (offset 0, old LSN 5) awaiting reallocation. -/
def sW7 : SA :=
  { initSA cfgW7 with segments := [⟨[], 3, some 5, true⟩], free := [0],
                      ordering := [(5, 0)] }

/-- The state after `next(20)` on `sW7`. -/
def sW7x : SA := ((next sW7 20).getD (0, sW7)).2

/-- A state with a three-entry ordering index. -/
def sW8 : SA := { initSA cfgW7 with ordering := [(5, 0), (20, 1), (30, 2)] }

/-- A tail segment whose record stream yields only a corrupted record: no
valid record, but the stream is not empty. -/
def tailC9 : SegmentRead := ⟨0, 0, 10, [LogRead.corrupted 5]⟩

/-- A disk holding exactly that tail segment. -/
def cfgC9 : Config := ⟨100, 2, ⟨1, 5, by decide, by decide⟩, 3, 7, [some tailC9]⟩

/-- The recovery state right before the tail phase on `cfgC9`. -/
def sW9 : SA := scanLoop (cfgC9.disk.length + 1) 0 (initSA cfgC9)

end SegAcc

namespace SegAcc

/-! ### List helper lemmas -/

theorem setSelf {α} (d : α) (l : List α) : ∀ i, i < l.length → l.set i (l.getD i d) = l := by
  induction l with
  | nil => intro i h; simp at h
  | cons a t ih =>
    intro i h
    cases i with
    | zero => rfl
    | succ n =>
      show a :: t.set n (t.getD n d) = a :: t
      rw [ih n (by simpa using h)]

theorem getD_set_self {α} (d a : α) (l : List α) :
    ∀ i, i < l.length → (l.set i a).getD i d = a := by
  induction l with
  | nil => intro i h; simp at h
  | cons b t ih =>
    intro i h
    cases i with
    | zero => rfl
    | succ n =>
      show (t.set n a).getD n d = a
      exact ih n (by simpa using h)

theorem getD_set_ne {α} (d a : α) (l : List α) :
    ∀ i j, i ≠ j → (l.set i a).getD j d = l.getD j d := by
  induction l with
  | nil => intro i j _; simp [List.set]
  | cons b t ih =>
    intro i j hne
    cases i with
    | zero =>
      cases j with
      | zero => exact absurd rfl hne
      | succ m => rfl
    | succ n =>
      cases j with
      | zero => rfl
      | succ m =>
        show (t.set n a).getD m d = t.getD m d
        exact ih n m (fun h => hne (by rw [h]))

theorem setBeyond {α} (a : α) (l : List α) :
    ∀ i, l.length ≤ i → l.set i a = l := by
  induction l with
  | nil => intro i _; rfl
  | cons b t ih =>
    intro i h
    cases i with
    | zero => simp at h
    | succ n =>
      show b :: t.set n a = b :: t
      rw [ih n (by simpa using h)]

theorem length_erase_le {α} [DecidableEq α] (a : α) (l : List α) :
    (l.erase a).length ≤ l.length := by
  induction l with
  | nil => simp
  | cons b t ih =>
    rw [List.erase_cons]
    split
    · simp
    · simpa using Nat.succ_le_succ ih

theorem mem_insertElem (x y : Nat) (l : List Nat) :
    y ∈ insertElem x l ↔ y = x ∨ y ∈ l := by
  unfold insertElem
  split
  · constructor
    · exact fun h => Or.inr h
    · rintro (rfl | h) <;> assumption
  · simp [or_comm, eq_comm]

theorem mem_insertElem_of_mem (x y : Nat) (l : List Nat) (h : y ∈ l) :
    y ∈ insertElem x l :=
  (mem_insertElem x y l).mpr (Or.inr h)

/-! ### ensureLoop / ensure_safe_free_distance -/

theorem ensureLoop_length (sz iob : Nat) :
    ∀ (fuel tip : Nat) (free : List Nat), iob ≤ fuel + free.length →
      iob ≤ (ensureLoop sz iob fuel tip free).2.length := by
  intro fuel
  induction fuel with
  | zero => intro tip free h; simpa using h
  | succ n ih =>
    intro tip free h
    show iob ≤ (if free.length < iob then ensureLoop sz iob n (tip + sz) (tip :: free)
      else (tip, free)).2.length
    split
    · exact ih (tip + sz) (tip :: free) (by simp; omega)
    · show iob ≤ free.length
      omega

theorem ensure_free_ge (s : SA) :
    s.config.io_bufs ≤ (ensureSafeFreeDistance s).free.length := by
  show s.config.io_bufs ≤
    (ensureLoop s.config.io_buf_size s.config.io_bufs s.config.io_bufs s.tip s.free).2.length
  exact ensureLoop_length _ _ _ _ _ (by omega)

/-! ### Field-preservation lemmas for the operations -/

theorem freezeLen_pids (seg : Segment) : (freezeLen seg).pids = seg.pids := by
  unfold freezeLen; split <;> rfl

theorem freezeLen_lsn (seg : Segment) : (freezeLen seg).lsn = seg.lsn := by
  unfold freezeLen; split <;> rfl

theorem freezeLen_freed (seg : Segment) : (freezeLen seg).freed = seg.freed := by
  unfold freezeLen; split <;> rfl

theorem adoptLsn_pids (seg : Segment) (lsn : Nat) : (adoptLsn seg lsn).pids = seg.pids := by
  unfold adoptLsn; split <;> rfl

theorem adoptLsn_pids_len (seg : Segment) (lsn : Nat) :
    (adoptLsn seg lsn).pids_len = seg.pids_len := by
  unfold adoptLsn; split <;> rfl

theorem adoptLsn_freed (seg : Segment) (lsn : Nat) :
    (adoptLsn seg lsn).freed = seg.freed := by
  unfold adoptLsn; split <;> rfl

theorem ensure_segments (s : SA) : (ensureSafeFreeDistance s).segments = s.segments := rfl

theorem ensure_to_clean (s : SA) : (ensureSafeFreeDistance s).to_clean = s.to_clean := rfl

theorem ensure_pending (s : SA) :
    (ensureSafeFreeDistance s).pending_clean = s.pending_clean := rfl

theorem ensure_config (s : SA) : (ensureSafeFreeDistance s).config = s.config := rfl

theorem ensure_ordering (s : SA) : (ensureSafeFreeDistance s).ordering = s.ordering := rfl

theorem shrink_fields (pid idx : Nat) (s : SA) :
    (shrink pid idx s).pending_clean = s.pending_clean ∧
    (shrink pid idx s).ordering = s.ordering ∧
    (shrink pid idx s).config = s.config ∧
    (shrink pid idx s).pause_rewriting = s.pause_rewriting ∧
    (shrink pid idx s).max_lsn = s.max_lsn ∧
    (shrink pid idx s).initial_offset = s.initial_offset := by
  simp only [shrink]
  split
  · exact ⟨rfl, rfl, rfl, rfl, rfl, rfl⟩
  · split <;> exact ⟨rfl, rfl, rfl, rfl, rfl, rfl⟩

/-- In every branch, `shrink` rewrites exactly the slot `idx` of the segments
array, with a segment whose `lsn` is unchanged, whose `pids_len` is the
frozen one, and whose `pids` set lost `pid`. -/
theorem shrink_segments_eq (pid idx : Nat) (s : SA) :
    ∃ segX : Segment, (shrink pid idx s).segments = s.segments.set idx segX ∧
      segX.lsn = (s.segments.getD idx default).lsn ∧
      segX.pids_len = (freezeLen (s.segments.getD idx default)).pids_len ∧
      segX.pids = (freezeLen (s.segments.getD idx default)).pids.erase pid := by
  simp only [shrink]
  split
  · refine ⟨⟨(freezeLen (s.segments.getD idx default)).pids.erase pid,
      (freezeLen (s.segments.getD idx default)).pids_len,
      (freezeLen (s.segments.getD idx default)).lsn, true⟩, ?_, ?_, ?_, ?_⟩
    · rw [ensure_segments]
    · exact freezeLen_lsn _
    · rfl
    · rfl
  · split
    · exact ⟨⟨(freezeLen (s.segments.getD idx default)).pids.erase pid,
        (freezeLen (s.segments.getD idx default)).pids_len,
        (freezeLen (s.segments.getD idx default)).lsn,
        (freezeLen (s.segments.getD idx default)).freed⟩, rfl, freezeLen_lsn _, rfl, rfl⟩
    · exact ⟨⟨(freezeLen (s.segments.getD idx default)).pids.erase pid,
        (freezeLen (s.segments.getD idx default)).pids_len,
        (freezeLen (s.segments.getD idx default)).lsn,
        (freezeLen (s.segments.getD idx default)).freed⟩, rfl, freezeLen_lsn _, rfl, rfl⟩

theorem shrink_seg_length (pid idx : Nat) (s : SA) :
    (shrink pid idx s).segments.length = s.segments.length := by
  obtain ⟨segX, heq, -, -, -⟩ := shrink_segments_eq pid idx s
  rw [heq, List.length_set]

theorem shrink_lsn_at (pid idx j : Nat) (s : SA) :
    ((shrink pid idx s).segments.getD j default).lsn =
      (s.segments.getD j default).lsn := by
  obtain ⟨segX, heq, hlsn, -, -⟩ := shrink_segments_eq pid idx s
  rw [heq]
  by_cases hji : idx = j
  · subst hji
    rcases Nat.lt_or_ge idx s.segments.length with hlt | hge
    · rw [getD_set_self _ _ _ _ hlt, hlsn]
    · rw [setBeyond _ _ _ hge]
  · rw [getD_set_ne _ _ _ _ _ hji]

/-- The branch outcomes of `shrink` on `to_clean`: either the freed
transition erases the offset, or the threshold branch inserts it (and the
threshold held of the written segment), or `to_clean` is untouched. -/
theorem shrink_to_clean_cases (pid idx : Nat) (s : SA) :
    (shrink pid idx s).to_clean = s.to_clean.erase (idx * s.config.io_buf_size) ∨
    ((shrink pid idx s).to_clean = insertElem (idx * s.config.io_buf_size) s.to_clean ∧
      thresholdOk ((freezeLen (s.segments.getD idx default)).pids.erase pid).length
        (freezeLen (s.segments.getD idx default)).pids_len
        s.config.segment_cleanup_threshold = true) ∨
    (shrink pid idx s).to_clean = s.to_clean := by
  simp only [shrink]
  split
  · left; rw [ensure_to_clean]
  · split
    · right; left
      constructor
      · rfl
      · assumption
    · right; right; rfl

/-- At the moment `shrink` schedules a deferred release, the free list has
already been topped up to the safe distance by `ensure_safe_free_distance`. -/
theorem shrink_release_safe (pid idx : Nat) (s : SA) :
    (shrink pid idx s).pendingRelease ≠ s.pendingRelease →
    s.config.io_bufs ≤ (shrink pid idx s).free.length := by
  simp only [shrink]
  split
  · intro _
    exact ensure_free_ge _
  · split
    · intro h; exact absurd rfl h
    · intro h; exact absurd rfl h

theorem getD_all_eq {α} (d : α) (l : List α) (h : ∀ x ∈ l, x = d) :
    ∀ j, l.getD j d = d := by
  induction l with
  | nil => intro j; cases j <;> rfl
  | cons a t ih =>
    intro j
    cases j with
    | zero => exact h a (by simp)
    | succ n => exact ih (fun x hx => h x (by simp [hx])) n

theorem getD_append_all_eq {α} (d : α) (l1 l2 : List α) (h2 : ∀ x ∈ l2, x = d) :
    ∀ j, (l1 ++ l2).getD j d = l1.getD j d := by
  induction l1 with
  | nil =>
    intro j
    show l2.getD j d = List.getD [] j d
    rw [getD_all_eq d l2 h2 j]
    cases j <;> rfl
  | cons a t ih =>
    intro j
    cases j with
    | zero => rfl
    | succ n => exact ih n

theorem resize_getD (l : List Segment) (idx j : Nat) :
    (resizeSegs l idx).getD j default = l.getD j default := by
  unfold resizeSegs
  split
  · exact getD_append_all_eq default l _ (fun x hx => List.eq_of_mem_replicate hx) j
  · rfl

theorem resize_length_ge (l : List Segment) (idx : Nat) :
    idx < (resizeSegs l idx).length := by
  unfold resizeSegs
  split
  · simp; omega
  · omega

theorem resize_len_eq (l : List Segment) (idx : Nat) (h : l.length ≤ idx) :
    (resizeSegs l idx).length = idx + 1 := by
  unfold resizeSegs
  rw [if_pos h]
  simp; omega

theorem resize_id (l : List Segment) (idx : Nat) (h : idx < l.length) :
    resizeSegs l idx = l := by
  unfold resizeSegs
  rw [if_neg (by omega)]

theorem get?_eq_getD {α} [Inhabited α] (l : List α) :
    ∀ i, i < l.length → l[i]? = some (l.getD i default) := by
  intro i h
  rw [List.getD_eq_getElem?_getD, List.getElem?_eq_getElem h]
  rfl

theorem adoptLsn_of_some (seg : Segment) (lsn l : Nat) (h : seg.lsn = some l) :
    adoptLsn seg lsn = seg := by
  unfold adoptLsn
  rw [h]
  rfl

theorem insertElem_not_mem (x : Nat) (l : List Nat) (h : x ∉ l) :
    insertElem x l = x :: l := by
  unfold insertElem
  rw [if_neg h]

theorem merged_fields (s : SA) (pid lid lsn : Nat) :
    (merged s pid lid lsn).to_clean = s.to_clean ∧
    (merged s pid lid lsn).free = s.free ∧
    (merged s pid lid lsn).ordering = s.ordering ∧
    (merged s pid lid lsn).pending_clean = s.pending_clean.erase pid ∧
    (merged s pid lid lsn).config = s.config ∧
    (merged s pid lid lsn).pendingRelease = s.pendingRelease ∧
    (merged s pid lid lsn).pause_rewriting = s.pause_rewriting := by
  simp only [merged]
  split <;> exact ⟨rfl, rfl, rfl, rfl, rfl, rfl, rfl⟩

theorem setOne_fields (pid new_idx lsn : Nat) (s : SA) (old_lid : Nat) :
    (setOne pid new_idx lsn s old_lid).pending_clean = s.pending_clean ∧
    (setOne pid new_idx lsn s old_lid).ordering = s.ordering ∧
    (setOne pid new_idx lsn s old_lid).config = s.config := by
  simp only [setOne]
  split
  · exact ⟨rfl, rfl, rfl⟩
  · split
    · exact ⟨rfl, rfl, rfl⟩
    · refine ⟨?_, ?_, ?_⟩
      · rw [(shrink_fields _ _ _).1]
      · rw [(shrink_fields _ _ _).2.1]
      · rw [(shrink_fields _ _ _).2.2.1]

theorem setOne_stale (pid new_idx lsn : Nat) (s : SA) (old_lid : Nat)
    (h : staleAt s old_lid lsn) : setOne pid new_idx lsn s old_lid = s := by
  obtain ⟨hlen, l, hl, hlt⟩ := h
  simp only [setOne]
  split
  · rfl
  · rw [resize_id _ _ hlen, adoptLsn_of_some _ _ _ hl, hl]
    simp only [Option.getD_some]
    rw [if_pos hlt, setSelf default s.segments _ hlen]

theorem freedOne_some_cases (pid lsn : Nat) (s : SA) (old_lid : Nat) (s' : SA)
    (h : freedOne pid lsn s old_lid = some s') :
    s' = s ∨ s' = shrink pid (old_lid / s.config.io_buf_size) s := by
  simp only [freedOne] at h
  split at h
  · cases h
  · split at h
    · cases h
    · split at h
      · cases h; exact Or.inl rfl
      · cases h; exact Or.inr rfl

theorem freedOne_preserves (pid lsn : Nat) (s : SA) (old_lid : Nat) (s' : SA)
    (h : freedOne pid lsn s old_lid = some s') :
    s'.segments.length = s.segments.length ∧
    (∀ j, (s'.segments.getD j default).lsn = (s.segments.getD j default).lsn) ∧
    s'.config = s.config ∧ s'.pending_clean = s.pending_clean := by
  rcases freedOne_some_cases pid lsn s old_lid s' h with rfl | rfl
  · exact ⟨rfl, fun _ => rfl, rfl, rfl⟩
  · exact ⟨shrink_seg_length _ _ _, fun j => shrink_lsn_at _ _ j _,
      (shrink_fields _ _ _).2.2.1, (shrink_fields _ _ _).1⟩

theorem freedOne_stale (pid lsn : Nat) (s : SA) (old_lid : Nat)
    (h : staleAt s old_lid lsn) : freedOne pid lsn s old_lid = some s := by
  obtain ⟨hlen, l, hl, hlt⟩ := h
  simp only [freedOne]
  rw [get?_eq_getD _ _ hlen]
  simp only [hl]
  rw [if_pos hlt]

theorem freedLoop_stale (pid lsn : Nat) (lids : List Nat) (s : SA)
    (h : ∀ lid ∈ lids, staleAt s lid lsn) : freedLoop pid lsn s lids = some s := by
  induction lids with
  | nil => rfl
  | cons a t ih =>
    show (match freedOne pid lsn s a with
      | none => none
      | some s1 => freedLoop pid lsn s1 t) = some s
    rw [freedOne_stale pid lsn s a (h a (by simp))]
    exact ih (fun lid hm => h lid (by simp [hm]))

theorem freedLoop_pending (pid lsn : Nat) (lids : List Nat) (s s' : SA)
    (h : freedLoop pid lsn s lids = some s') :
    s'.pending_clean = s.pending_clean := by
  induction lids generalizing s with
  | nil => cases h; rfl
  | cons a t ih =>
    simp only [freedLoop] at h
    cases hfo : freedOne pid lsn s a with
    | none => simp only [hfo] at h; cases h
    | some s1 =>
      simp only [hfo] at h
      rw [ih s1 h]
      exact (freedOne_preserves pid lsn s a s1 hfo).2.2.2

theorem freedOne_bad (pid lsn : Nat) (s : SA) (lid : Nat)
    (h : s.segments.length ≤ lid / s.config.io_buf_size ∨
      (s.segments.getD (lid / s.config.io_buf_size) default).lsn = none) :
    freedOne pid lsn s lid = none := by
  simp only [freedOne]
  rcases Nat.lt_or_ge (lid / s.config.io_buf_size) s.segments.length with hlt | hge
  · rcases h with hge2 | hnone
    · omega
    · rw [get?_eq_getD _ _ hlt]
      simp only [hnone]
  · rw [List.getElem?_eq_none (by omega)]

theorem freedLoop_bad (pid lsn : Nat) (lids : List Nat) (s : SA)
    (h : ∃ lid ∈ lids, s.segments.length ≤ lid / s.config.io_buf_size ∨
      (s.segments.getD (lid / s.config.io_buf_size) default).lsn = none) :
    freedLoop pid lsn s lids = none := by
  induction lids generalizing s with
  | nil => obtain ⟨lid, hm, -⟩ := h; cases hm
  | cons a t ih =>
    simp only [freedLoop]
    obtain ⟨lid, hm, hbad⟩ := h
    rcases List.mem_cons.mp hm with rfl | hmt
    · rw [freedOne_bad pid lsn s lid hbad]
    · cases hfo : freedOne pid lsn s a with
      | none => simp only [hfo]
      | some s1 =>
        simp only [hfo]
        apply ih
        refine ⟨lid, hmt, ?_⟩
        obtain ⟨hlen, hlsn, hcfg, -⟩ := freedOne_preserves pid lsn s a s1 hfo
        rw [hcfg, hlen, hlsn]
        exact hbad

/-! ### Sorted association list lemmas for `ordering` -/

theorem lookup_insertKey_self (k v : Nat) (l : List (Nat × Nat)) :
    lookupKey k (insertKey k v l) = some v := by
  induction l with
  | nil => simp [insertKey, lookupKey]
  | cons p rest ih =>
    simp only [insertKey]
    split
    · simp [lookupKey]
    · split
      · simp [lookupKey]
      · rename_i h1 h2
        simp only [lookupKey]
        rw [if_neg (fun he => h2 he.symm)]
        exact ih

theorem lookup_insertKey_ne (k v j : Nat) (l : List (Nat × Nat)) (hjk : j ≠ k) :
    lookupKey j (insertKey k v l) = lookupKey j l := by
  induction l with
  | nil =>
    simp only [insertKey, lookupKey]
    rw [if_neg (fun he => hjk he.symm)]
  | cons p rest ih =>
    simp only [insertKey]
    split
    · simp only [lookupKey]
      rw [if_neg (fun he => hjk he.symm)]
    · split
      · rename_i h1 h2
        simp only [lookupKey]
        rw [← h2, if_neg (fun he => hjk he.symm), if_neg (fun he => hjk he.symm)]
      · simp only [lookupKey]
        split
        · rfl
        · exact ih

theorem lookup_none_of_forall (j : Nat) (l : List (Nat × Nat))
    (h : ∀ p ∈ l, p.1 ≠ j) : lookupKey j l = none := by
  induction l with
  | nil => rfl
  | cons p rest ih =>
    simp only [lookupKey]
    rw [if_neg (h p (by simp))]
    exact ih (fun q hq => h q (by simp [hq]))

theorem lookup_eraseKey_self (k : Nat) (l : List (Nat × Nat))
    (h : List.Pairwise (fun a b : Nat × Nat => a.1 < b.1) l) :
    lookupKey k (eraseKey k l) = none := by
  induction l with
  | nil => rfl
  | cons p rest ih =>
    simp only [eraseKey]
    split
    · rename_i hpk
      apply lookup_none_of_forall
      intro q hq
      have h1 := (List.pairwise_cons.mp h).1 q hq
      omega
    · simp only [lookupKey]
      rw [if_neg (by assumption)]
      exact ih (List.pairwise_cons.mp h).2

/-! ### next -/

theorem next_none_unaligned (s : SA) (lsn : Nat)
    (h : lsn % s.config.io_buf_size ≠ 0) : next s lsn = none := by
  simp only [next]
  rw [if_pos (by simpa using h)]

theorem popLid_fields (s : SA) :
    (popLid s).2.segments = s.segments ∧
    (popLid s).2.config = s.config ∧
    (popLid s).2.to_clean = s.to_clean ∧
    (popLid s).2.pending_clean = s.pending_clean ∧
    (popLid s).2.ordering = s.ordering ∧
    (popLid s).2.pendingRelease = s.pendingRelease := by
  simp only [popLid]
  split
  · exact ⟨rfl, rfl, rfl, rfl, rfl, rfl⟩
  · split
    · exact ⟨rfl, rfl, rfl, rfl, rfl, rfl⟩
    · exact ⟨rfl, rfl, rfl, rfl, rfl, rfl⟩

theorem next_some (s : SA) (lsn lid : Nat) (s' : SA)
    (h : next s lsn = some (lid, s')) :
    lsn % s.config.io_buf_size = 0 ∧
    (s.segments.getD (lid / s.config.io_buf_size) default).pids = [] ∧
    s'.config = s.config ∧
    s'.to_clean = s.to_clean ∧
    s'.pending_clean = s.pending_clean ∧
    (s'.segments.getD (lid / s.config.io_buf_size) default).lsn = some lsn ∧
    (s'.segments.getD (lid / s.config.io_buf_size) default).freed = false ∧
    (s'.segments.getD (lid / s.config.io_buf_size) default).pids_len = 0 ∧
    ((s.segments.getD (lid / s.config.io_buf_size) default).lsn = none →
      s'.ordering = insertKey lsn lid s.ordering) ∧
    (∀ old, (s.segments.getD (lid / s.config.io_buf_size) default).lsn = some old →
      s'.ordering = insertKey lsn lid (eraseKey old s.ordering)) := by
  obtain ⟨hsegs, hcfg, htc, hpc, hord, -⟩ := popLid_fields s
  simp only [next] at h
  split at h
  · cases h
  · rename_i hmod
    have hmod0 : lsn % s.config.io_buf_size = 0 := by simpa using hmod
    split at h
    · cases h
    · rename_i hpe
      rw [Option.some_inj, Prod.mk.injEq] at h
      obtain ⟨rfl, rfl⟩ := h
      rw [hcfg, hsegs, resize_getD] at hpe
      have hne : (s.segments.getD ((popLid s).1 / s.config.io_buf_size) default).pids = [] := by
        rcases hx : (s.segments.getD ((popLid s).1 / s.config.io_buf_size) default).pids with _ | _
        · rfl
        · rw [hx] at hpe; simp at hpe
      refine ⟨hmod0, hne, hcfg, htc, hpc, ?_, ?_, ?_, ?_, ?_⟩
      · simp only [hcfg, hsegs]
        rw [getD_set_self _ _ _ _ (resize_length_ge _ _)]
      · simp only [hcfg, hsegs]
        rw [getD_set_self _ _ _ _ (resize_length_ge _ _)]
      · simp only [hcfg, hsegs]
        rw [getD_set_self _ _ _ _ (resize_length_ge _ _)]
      · intro hnone
        simp only [hcfg, hsegs, hord, resize_getD, hnone]
      · intro old hold
        simp only [hcfg, hsegs, hord, resize_getD, hold]

/-! ### clean -/

theorem findPid_some (pending l : List Nat) (q : Nat)
    (h : findPid pending l = some q) : q ∈ l ∧ q ∉ pending := by
  induction l with
  | nil => cases h
  | cons a t ih =>
    simp only [findPid] at h
    split at h
    · obtain ⟨h1, h2⟩ := ih h
      exact ⟨by simp [h1], h2⟩
    · cases h
      rename_i hnm
      exact ⟨by simp, hnm⟩

theorem findPid_none_of_all (pending l : List Nat)
    (h : ∀ q ∈ l, q ∈ pending) : findPid pending l = none := by
  induction l with
  | nil => rfl
  | cons a t ih =>
    simp only [findPid]
    rw [if_pos (h a (by simp))]
    exact ih (fun q hq => h q (by simp [hq]))

theorem cleanLoop_none (s : SA) (lids : List Nat) (s' : SA)
    (h : cleanLoop s lids = some (none, s')) : s' = s := by
  induction lids with
  | nil => cases h; rfl
  | cons a t ih =>
    simp only [cleanLoop] at h
    split at h
    · cases h
    · split at h
      · cases h
      · exact ih h

theorem cleanLoop_some (s : SA) (lids : List Nat) (p : Nat) (s' : SA)
    (h : cleanLoop s lids = some (some p, s')) :
    p ∉ s.pending_clean ∧ s' = { s with pending_clean := p :: s.pending_clean } ∧
    ∃ lid ∈ lids, ∃ seg, s.segments[lid / s.config.io_buf_size]? = some seg ∧ p ∈ seg.pids := by
  induction lids with
  | nil => cases h
  | cons a t ih =>
    simp only [cleanLoop] at h
    split at h
    · cases h
    · rename_i seg hseg
      split at h
      · rename_i q hq
        cases h
        obtain ⟨hmem, hnp⟩ := findPid_some _ _ _ hq
        refine ⟨hnp, ?_, a, by simp, seg, hseg, hmem⟩
        rw [insertElem_not_mem _ _ hnp]
      · obtain ⟨h1, h2, lid, hm, hrest⟩ := ih h
        exact ⟨h1, h2, lid, by simp [hm], hrest⟩

theorem cleanLoop_all_pending (s : SA) (lids : List Nat)
    (h : ∀ lid ∈ lids, ∃ seg, s.segments[lid / s.config.io_buf_size]? = some seg ∧
      ∀ q ∈ seg.pids, q ∈ s.pending_clean) :
    cleanLoop s lids = some (none, s) := by
  induction lids with
  | nil => rfl
  | cons a t ih =>
    simp only [cleanLoop]
    obtain ⟨seg, hseg, hall⟩ := h a (by simp)
    simp only [hseg, findPid_none_of_all _ _ hall]
    exact ih (fun lid hm => h lid (by simp [hm]))

theorem clean_gate (s : SA)
    (h : s.config.min_free_segments < s.free.length ∨ s.to_clean = []) :
    clean s = some (none, s) := by
  simp only [clean]
  rw [if_pos]
  rcases h with h | h
  · simp [h]
  · simp [h]

theorem clean_some (s : SA) (p : Nat) (s' : SA)
    (h : clean s = some (some p, s')) :
    p ∉ s.pending_clean ∧ s' = { s with pending_clean := p :: s.pending_clean } ∧
    ∃ lid ∈ s.to_clean, ∃ seg, s.segments[lid / s.config.io_buf_size]? = some seg ∧
      p ∈ seg.pids := by
  simp only [clean] at h
  split at h
  · cases h
  · exact cleanLoop_some s s.to_clean p s' h

theorem clean_result_to_clean (s : SA) (r : Option Nat) (s' : SA)
    (h : clean s = some (r, s')) : s'.to_clean = s.to_clean := by
  simp only [clean] at h
  split at h
  · cases h; rfl
  · cases r with
    | none => rw [cleanLoop_none s _ _ h]
    | some p => rw [(cleanLoop_some s _ _ _ h).2.1]

theorem clean_result_pending (s : SA) (r : Option Nat) (s' : SA) (p : Nat)
    (hp : p ∈ s.pending_clean) (h : clean s = some (r, s')) :
    p ∈ s'.pending_clean := by
  simp only [clean] at h
  split at h
  · cases h; exact hp
  · cases r with
    | none => rw [cleanLoop_none s _ _ h]; exact hp
    | some q =>
      rw [(cleanLoop_some s _ _ _ h).2.1]
      simp [hp]

theorem foldl_setOne_pending (pid ni lsn : Nat) (l : List Nat) :
    ∀ t : SA, (l.foldl (setOne pid ni lsn) t).pending_clean = t.pending_clean := by
  induction l with
  | nil => intro t; rfl
  | cons a r ih =>
    intro t
    show (r.foldl (setOne pid ni lsn) (setOne pid ni lsn t a)).pending_clean = _
    rw [ih (setOne pid ni lsn t a), (setOne_fields _ _ _ _ _).1]

theorem set_pending (s : SA) (pid : Nat) (ol : List Nat) (nl lsn : Nat) :
    (set s pid ol nl lsn).pending_clean = (s.pending_clean.erase pid).erase pid := by
  simp only [set]
  rw [(merged_fields _ _ _ _).2.2.2.1, foldl_setOne_pending]

theorem freed_pending (s : SA) (pid : Nat) (ol : List Nat) (lsn : Nat) (s' : SA)
    (h : freed s pid ol lsn = some s') :
    s'.pending_clean = s.pending_clean.erase pid := by
  exact freedLoop_pending pid lsn ol _ s' h

theorem release_pending (s : SA) : (release s).pending_clean = s.pending_clean := by
  unfold release
  split <;> rfl

theorem initLoop_pending : ∀ (fuel idx : Nat) (s : SA),
    (initLoop fuel idx s).pending_clean = s.pending_clean := by
  intro fuel
  induction fuel with
  | zero => intro idx s; rfl
  | succ n ih =>
    intro idx s
    simp only [initLoop]
    split
    · rw [ih]
      split
      · rfl
      · split <;> rfl
    · rfl

theorem initFromSegments_pending (s : SA) (given : List Segment) :
    (initFromSegments s given).pending_clean = s.pending_clean := by
  simp only [initFromSegments]
  rw [initLoop_pending]

theorem step_pres_pending (s s' : SA) (p : Nat) (op : Op)
    (hp : p ∈ s.pending_clean) (hni : ¬ involvesPid p op)
    (hs : step s op = some s') : p ∈ s'.pending_clean := by
  cases op with
  | mergedOp pid lid lsn =>
    cases hs
    rw [(merged_fields _ _ _ _).2.2.2.1]
    exact (List.mem_erase_of_ne (fun he => hni he.symm)).mpr hp
  | setOp pid ol nl lsn =>
    cases hs
    rw [set_pending]
    have hm1 := (List.mem_erase_of_ne (fun he => hni he.symm)).mpr hp
    exact (List.mem_erase_of_ne (fun he => hni he.symm)).mpr hm1
  | freedOp pid ol lsn =>
    simp only [step] at hs
    rw [freed_pending s pid ol lsn s' hs]
    exact (List.mem_erase_of_ne (fun he => hni he.symm)).mpr hp
  | nextOp lsn =>
    simp only [step] at hs
    cases hnext : next s lsn with
    | none => rw [hnext] at hs; cases hs
    | some pr =>
      rw [hnext] at hs
      cases hs
      rw [(next_some s lsn pr.1 pr.2 hnext).2.2.2.2.1]
      exact hp
  | cleanOp =>
    simp only [step] at hs
    cases hclean : clean s with
    | none => rw [hclean] at hs; cases hs
    | some pr =>
      rw [hclean] at hs
      cases hs
      exact clean_result_pending s pr.1 pr.2 p hp hclean
  | pauseOp => cases hs; exact hp
  | resumeOp => cases hs; exact hp
  | releaseOp =>
    cases hs
    rw [release_pending]
    exact hp
  | initOp segs =>
    cases hs
    rw [initFromSegments_pending]
    exact hp

theorem run_pres_pending (ops : List Op) :
    ∀ (s s' : SA) (p : Nat), p ∈ s.pending_clean →
      (∀ op ∈ ops, ¬ involvesPid p op) → run s ops = some s' →
      p ∈ s'.pending_clean := by
  induction ops with
  | nil => intro s s' p hp _ h; cases h; exact hp
  | cons op rest ih =>
    intro s s' p hp hni h
    simp only [run] at h
    cases hst : step s op with
    | none => rw [hst] at h; cases h
    | some s1 =>
      rw [hst] at h
      exact ih s1 s' p (step_pres_pending s s1 p op hp (hni op (by simp)) hst)
        (fun o ho => hni o (by simp [ho])) h

/-! ### Stale-race lemmas -/

theorem merged_stale (s : SA) (pid lid lsn : Nat) (h : staleAt s lid lsn) :
    merged s pid lid lsn = pcErased s pid := by
  obtain ⟨hlen, l, hl, hlt⟩ := h
  simp only [merged]
  rw [resize_id _ _ hlen, adoptLsn_of_some _ _ _ hl, hl]
  simp only [Option.getD_some]
  rw [if_pos hlt, setSelf default s.segments _ hlen]
  rfl

theorem set_stale (s : SA) (pid : Nat) (ol : List Nat) (nl lsn : Nat)
    (hnd : s.pending_clean.Nodup)
    (hol : ∀ lid ∈ ol, staleAt s lid lsn) (hnl : staleAt s nl lsn) :
    set s pid ol nl lsn = pcErased s pid := by
  simp only [set]
  have hfold : ∀ (l : List Nat), (∀ lid ∈ l, staleAt s lid lsn) →
      l.foldl (setOne pid (nl / s.config.io_buf_size) lsn) (pcErased s pid) =
        pcErased s pid := by
    intro l
    induction l with
    | nil => intro _; rfl
    | cons a r ihl =>
      intro hst
      show r.foldl _ (setOne pid (nl / s.config.io_buf_size) lsn (pcErased s pid) a) = _
      rw [setOne_stale pid _ lsn (pcErased s pid) a (hst a (by simp))]
      exact ihl (fun lid hm => hst lid (by simp [hm]))
  show merged (ol.foldl (setOne pid (nl / s.config.io_buf_size) lsn) (pcErased s pid))
    pid nl lsn = pcErased s pid
  rw [hfold ol hol, merged_stale (pcErased s pid) pid nl lsn hnl]
  show pcErased (pcErased s pid) pid = pcErased s pid
  have hnm : pid ∉ s.pending_clean.erase pid := by
    intro hm
    exact ((hnd.mem_erase_iff).mp hm).1 rfl
  simp only [pcErased]
  rw [List.erase_of_not_mem hnm]

theorem freed_stale (s : SA) (pid : Nat) (ol : List Nat) (lsn : Nat)
    (hol : ∀ lid ∈ ol, staleAt s lid lsn) :
    freed s pid ol lsn = some (pcErased s pid) := by
  show freedLoop pid lsn (pcErased s pid) ol = _
  exact freedLoop_stale pid lsn ol (pcErased s pid) (fun lid h => hol lid h)

/-! ### Recovery lemmas -/

theorem scanLoop_free : ∀ (fuel cursor : Nat) (s : SA),
    (scanLoop fuel cursor s).free = s.free := by
  intro fuel
  induction fuel with
  | zero => intro cursor s; rfl
  | succ n ih =>
    intro cursor s
    simp only [scanLoop]
    split
    · rfl
    · rw [ih]
      rfl

theorem tailPhase_cases (s : SA) (mc : Nat)
    (hlk : lookupKey s.max_lsn s.ordering = some mc) :
    (s.config.read_segment mc = none → (tailPhase s).free = s.free ++ [mc]) ∧
    (∀ seg, s.config.read_segment mc = some seg → seg.records = [] →
      (tailPhase s).free = s.free ++ [mc]) ∧
    (∀ seg, s.config.read_segment mc = some seg → seg.records ≠ [] →
      (tailPhase s).free = s.free) := by
  refine ⟨?_, ?_, ?_⟩
  · intro hrd
    simp only [tailPhase, hlk, hrd]
  · intro seg hrd hemp
    simp only [tailPhase, hlk, hrd]
    rw [if_pos (by simp [hemp])]
  · intro seg hrd hne
    simp only [tailPhase, hlk, hrd]
    rw [if_neg (by simpa using hne)]

theorem getD_of_ge {α} (d : α) (l : List α) : ∀ i, l.length ≤ i → l.getD i d = d := by
  induction l with
  | nil => intro i _; cases i <;> rfl
  | cons a t ih =>
    intro i h
    cases i with
    | zero => simp at h
    | succ n => exact ih n (by simpa using h)

theorem adoptLsn_none (seg : Segment) (lsn : Nat) (h : seg.lsn = none) :
    adoptLsn seg lsn = { seg with lsn := some lsn } := by
  unfold adoptLsn
  rw [h]
  rfl

theorem freedOne_inbounds (pid lsn : Nat) (s : SA) (lid : Nat) (s' : SA)
    (h : freedOne pid lsn s lid = some s') :
    lid / s.config.io_buf_size < s.segments.length := by
  by_contra hge
  rw [freedOne_bad pid lsn s lid (Or.inl (by omega))] at h
  cases h

/-- The freeze step of `shrink` establishes `pids_len ≥ |pids|` for the
touched slot. -/
theorem shrink_freeze_bound (s : SA) (pid idx : Nat)
    (hfz : (s.segments.getD idx default).pids_len = 0) (hlt : idx < s.segments.length) :
    ((shrink pid idx s).segments.getD idx default).pids.length ≤
      ((shrink pid idx s).segments.getD idx default).pids_len := by
  obtain ⟨segX, heq, -, hpl, hpd⟩ := shrink_segments_eq pid idx s
  rw [heq, getD_set_self _ _ _ _ hlt, hpl, hpd]
  unfold freezeLen
  rw [if_pos hfz]
  exact length_erase_le _ _

/-- The freeze bound lifted to a `freed` call on a single old offset. -/
theorem freed_freeze_bound (s : SA) (pid old_lid lsn : Nat) (s' : SA)
    (h : freed s pid [old_lid] lsn = some s')
    (hfz : (s.segments.getD (old_lid / s.config.io_buf_size) default).pids_len = 0)
    (hnz : (s'.segments.getD (old_lid / s.config.io_buf_size) default).pids_len ≠ 0) :
    (s'.segments.getD (old_lid / s.config.io_buf_size) default).pids.length ≤
      (s'.segments.getD (old_lid / s.config.io_buf_size) default).pids_len := by
  have h2 : freedLoop pid lsn (pcErased s pid) [old_lid] = some s' := h
  simp only [freedLoop] at h2
  cases hfo : freedOne pid lsn (pcErased s pid) old_lid with
  | none => simp only [hfo] at h2; cases h2
  | some s1 =>
    simp only [hfo] at h2
    cases h2
    rcases freedOne_some_cases _ _ _ _ _ hfo with rfl | rfl
    · exact absurd hfz hnz
    · have hlt := freedOne_inbounds _ _ _ _ _ hfo
      exact shrink_freeze_bound (pcErased s pid) pid _ hfz hlt

/-! ### Claims -/

/-- C1 (corrected). The free-list length need not be at least `io_bufs` when
`next` returns an offset: the very first `next` on a fresh accountant pops
from an empty free list (falling back to `bump_tip`) and returns an offset
while the free list is empty and `io_bufs = 2`. -/
theorem c1_counterexample :
    (newSA cfgT).free.length < cfgT.io_bufs ∧
    (next (newSA cfgT) 0).isSome = true ∧
    ((next (newSA cfgT) 0).getD (0, newSA cfgT)).2.free.length < cfgT.io_bufs := by
  decide

/-- C1 (amended). The safe-reuse distance is guaranteed at the point the
source maintains it: immediately after `ensure_safe_free_distance` returns,
the free list holds at least `io_bufs` entries, and in particular whenever
`set`/`freed` (via `shrink`) schedules a freed segment's deferred enqueue,
at least `io_bufs` offsets are already in the free list ahead of it. -/
theorem c1_safe_free_distance :
    (∀ s : SA, s.config.io_bufs ≤ (ensureSafeFreeDistance s).free.length) ∧
    (∀ (pid idx : Nat) (s : SA), (shrink pid idx s).pendingRelease ≠ s.pendingRelease →
      s.config.io_bufs ≤ (shrink pid idx s).free.length) :=
  ⟨ensure_free_ge, fun pid idx s h => shrink_release_safe pid idx s h⟩

theorem c1_witness :
    (shrink 7 0 sW1).pendingRelease ≠ sW1.pendingRelease ∧
    sW1.config.io_bufs ≤ (shrink 7 0 sW1).free.length :=
  ⟨by decide, c1_safe_free_distance.2 7 0 sW1 (by decide)⟩

/-- C2 (corrected). A stale call is not a complete no-op: `merged` removes
`pid` from `pending_clean` before the stale-LSN check. In the reachable state
`sC2` (pending_clean = {1}), the stale call `merged(1, 0, 0)` against segment
0 (recorded LSN 1 > 0) changes the state. -/
theorem c2_counterexample :
    staleAt sC2 0 0 ∧ 1 ∈ sC2.pending_clean ∧ merged sC2 1 0 0 ≠ sC2 := by
  decide

/-- C2 (amended). A `merged`/`set`/`freed` call whose LSN is strictly older
than the recorded LSN of every targeted segment leaves the entire state
unchanged except that `pid` is removed from `pending_clean` (for `set`, the
targets are the old offsets and the new offset). -/
theorem c2_stale_race (s : SA) (pid lsn : Nat) (hnd : s.pending_clean.Nodup) :
    (∀ lid, staleAt s lid lsn → merged s pid lid lsn = pcErased s pid) ∧
    (∀ (old_lids : List Nat) (new_lid : Nat), (∀ l ∈ old_lids, staleAt s l lsn) →
      staleAt s new_lid lsn → set s pid old_lids new_lid lsn = pcErased s pid) ∧
    (∀ old_lids : List Nat, (∀ l ∈ old_lids, staleAt s l lsn) →
      freed s pid old_lids lsn = some (pcErased s pid)) :=
  ⟨fun lid h => merged_stale s pid lid lsn h,
   fun ol nl hol hnl => set_stale s pid ol nl lsn hnd hol hnl,
   fun ol hol => freed_stale s pid ol lsn hol⟩

theorem c2_witness : merged sC2 1 0 0 = pcErased sC2 1 :=
  (c2_stale_race sC2 1 0 (by decide)).1 0 (by decide)

/-- C3 (corrected). Membership in `to_clean` does not imply the occupancy
threshold in every reachable state: after `opsC3`, segment 0 sits in
`to_clean` while its occupancy 2/6 exceeds the threshold 1/5 (because
`merged` re-grew `pids` without revisiting `to_clean`). -/
theorem c3_counterexample :
    (run (newSA cfgT) opsC3).isSome = true ∧
    0 ∈ sC3.to_clean ∧
    (sC3.segments.getD 0 default).freed = false ∧
    thresholdOk (sC3.segments.getD 0 default).pids.length
      (sC3.segments.getD 0 default).pids_len
      sC3.config.segment_cleanup_threshold = false := by
  decide

/-- C3 (amended). Offsets enter `to_clean` only at the single insertion site
shared by `set` and `freed` (the `shrink` path), and at that instant the
written segment's occupancy satisfies the threshold (with a nonzero frozen
denominator); `merged`, `next` and `clean` never insert into `to_clean`.
Neither the threshold nor non-freedness is maintained afterwards. -/
theorem c3_to_clean_insertion :
    (∀ (s : SA) (pid lid lsn : Nat), (merged s pid lid lsn).to_clean = s.to_clean) ∧
    (∀ (s : SA) (lsn lid : Nat) (s' : SA), next s lsn = some (lid, s') →
      s'.to_clean = s.to_clean) ∧
    (∀ (s : SA) (r : Option Nat) (s' : SA), clean s = some (r, s') →
      s'.to_clean = s.to_clean) ∧
    (∀ (s : SA) (pid idx lid : Nat), lid ∈ (shrink pid idx s).to_clean →
      lid ∈ s.to_clean ∨ (lid = idx * s.config.io_buf_size ∧
        thresholdOk ((freezeLen (s.segments.getD idx default)).pids.erase pid).length
          (freezeLen (s.segments.getD idx default)).pids_len
          s.config.segment_cleanup_threshold = true)) := by
  refine ⟨fun s pid lid lsn => (merged_fields s pid lid lsn).1,
    fun s lsn lid s' h => (next_some s lsn lid s' h).2.2.2.1,
    fun s r s' h => clean_result_to_clean s r s' h,
    fun s pid idx lid hmem => ?_⟩
  rcases shrink_to_clean_cases pid idx s with hc | ⟨hc, hthr⟩ | hc
  · rw [hc] at hmem
    exact Or.inl (List.mem_of_mem_erase hmem)
  · rw [hc] at hmem
    rcases (mem_insertElem _ _ _).mp hmem with rfl | hm
    · exact Or.inr ⟨rfl, hthr⟩
    · exact Or.inl hm
  · rw [hc] at hmem
    exact Or.inl hmem

theorem c3_witness :
    (0 : Nat) ∈ (shrink 6 0 sW3).to_clean ∧
    ((0 : Nat) ∈ sW3.to_clean ∨ ((0 : Nat) = 0 * sW3.config.io_buf_size ∧
      thresholdOk ((freezeLen (sW3.segments.getD 0 default)).pids.erase 6).length
        (freezeLen (sW3.segments.getD 0 default)).pids_len
        sW3.config.segment_cleanup_threshold = true)) :=
  ⟨by decide, c3_to_clean_insertion.2.2.2 sW3 6 0 0 (by decide)⟩

/-- C4 (corrected). `pids_len ≥ |pids|` is not an invariant of reachable
states: after `opsC4`, segment 0 has frozen `pids_len = 2` while `merged`
has grown `pids` to 3 elements. -/
theorem c4_counterexample :
    (run (newSA cfgT) opsC4).isSome = true ∧
    (sC4.segments.getD 0 default).pids_len = 2 ∧
    (sC4.segments.getD 0 default).pids.length = 3 ∧
    ¬((sC4.segments.getD 0 default).pids.length ≤ (sC4.segments.getD 0 default).pids_len) := by
  decide

/-- C4 (amended). The bound holds at the moment the denominator is frozen:
when a `set`/`freed` step (the `shrink` path) freezes `pids_len` of a segment
whose `pids_len` was zero, immediately afterwards that segment satisfies
`pids_len ≥ |pids|`; later `merged` calls can break the inequality. -/
theorem c4_pids_len_freeze :
    (∀ (s : SA) (pid idx : Nat), (s.segments.getD idx default).pids_len = 0 →
      idx < s.segments.length →
      ((shrink pid idx s).segments.getD idx default).pids.length ≤
        ((shrink pid idx s).segments.getD idx default).pids_len) ∧
    (∀ (s : SA) (pid old_lid lsn : Nat) (s' : SA),
      freed s pid [old_lid] lsn = some s' →
      (s.segments.getD (old_lid / s.config.io_buf_size) default).pids_len = 0 →
      (s'.segments.getD (old_lid / s.config.io_buf_size) default).pids_len ≠ 0 →
      (s'.segments.getD (old_lid / s.config.io_buf_size) default).pids.length ≤
        (s'.segments.getD (old_lid / s.config.io_buf_size) default).pids_len) :=
  ⟨fun s pid idx hfz hlt => shrink_freeze_bound s pid idx hfz hlt,
   fun s pid old_lid lsn s' h hfz hnz => freed_freeze_bound s pid old_lid lsn s' h hfz hnz⟩

theorem c4_witness :
    ((shrink 1 0 sW4).segments.getD 0 default).pids.length ≤
      ((shrink 1 0 sW4).segments.getD 0 default).pids_len :=
  c4_pids_len_freeze.1 sW4 1 0 (by decide) (by decide)

/-- C5 (confirmed). `clean` returns nothing when the free list strictly
exceeds `min_free_segments` or `to_clean` is empty; otherwise a returned
page ID lies in some `to_clean` segment's `pids`, was not yet in
`pending_clean`, and is recorded there (the rest of the state unchanged);
and when every page of every `to_clean` segment is already pending, `clean`
returns nothing. (Which eligible page is "first" depends on the
unspecified `HashSet` iteration order, modelled by list order.) -/
theorem c5_clean (s : SA) :
    ((s.config.min_free_segments < s.free.length ∨ s.to_clean = []) →
      clean s = some (none, s)) ∧
    (∀ (p : Nat) (s' : SA), clean s = some (some p, s') →
      p ∉ s.pending_clean ∧ s' = { s with pending_clean := p :: s.pending_clean } ∧
      ∃ lid ∈ s.to_clean, ∃ seg, s.segments[lid / s.config.io_buf_size]? = some seg ∧
        p ∈ seg.pids) ∧
    ((∀ lid ∈ s.to_clean, ∃ seg, s.segments[lid / s.config.io_buf_size]? = some seg ∧
        ∀ q ∈ seg.pids, q ∈ s.pending_clean) → clean s = some (none, s)) := by
  refine ⟨clean_gate s, fun p s' h => clean_some s p s' h, fun hall => ?_⟩
  simp only [clean]
  split
  · rfl
  · exact cleanLoop_all_pending s s.to_clean hall

theorem c5_witness : clean sW5 = some (none, sW5) :=
  (c5_clean sW5).1 (Or.inl (by decide))

/-- C6 (confirmed). A page ID returned by `clean` is inserted into
`pending_clean`; as long as no subsequent `merged`/`set`/`freed` call names
that page, every operation preserves its membership, and `clean` never
returns a pending page — so the page is not returned again. -/
theorem c6_clean_no_repeat (s s₁ s₂ : SA) (p : Nat) (ops : List Op)
    (h1 : clean s = some (some p, s₁))
    (h2 : run s₁ ops = some s₂)
    (h3 : ∀ op ∈ ops, ¬ involvesPid p op) :
    ∀ (q : Nat) (s₃ : SA), clean s₂ = some (some q, s₃) → q ≠ p := by
  intro q s₃ hq
  have hp1 : p ∈ s₁.pending_clean := by
    obtain ⟨-, hs', -⟩ := clean_some s p s₁ h1
    rw [hs']
    simp
  have hp2 : p ∈ s₂.pending_clean := run_pres_pending ops s₁ s₂ p hp1 h3 h2
  have hqn : q ∉ s₂.pending_clean := (clean_some s₂ q s₃ hq).1
  exact fun he => hqn (he ▸ hp2)

theorem c6_witness : (9 : Nat) ≠ 1 :=
  c6_clean_no_repeat sBW sBW1 sBW2 1 [Op.mergedOp 9 1 100]
    (by decide) (by decide) (by decide) 9 (((clean sBW2).getD (none, sBW2)).2) (by decide)

/-- C7 (confirmed). `next(lsn)` with an unaligned `lsn` hits the assertion;
on success the allocated segment's `pids` was empty (asserted), the segment
afterwards carries `lsn` with `freed` cleared and `pids_len` zeroed, the
pair `(lsn, lid)` is in `ordering`, and any previously held LSN of that
segment (other than `lsn` itself) is gone from `ordering`. -/
theorem c7_next :
    (∀ (s : SA) (lsn : Nat), lsn % s.config.io_buf_size ≠ 0 → next s lsn = none) ∧
    (∀ (s : SA) (lsn lid : Nat) (s' : SA), ordInv s → next s lsn = some (lid, s') →
      (s.segments.getD (lid / s.config.io_buf_size) default).pids = [] ∧
      (s'.segments.getD (lid / s.config.io_buf_size) default).lsn = some lsn ∧
      (s'.segments.getD (lid / s.config.io_buf_size) default).freed = false ∧
      (s'.segments.getD (lid / s.config.io_buf_size) default).pids_len = 0 ∧
      lookupKey lsn s'.ordering = some lid ∧
      (∀ old, (s.segments.getD (lid / s.config.io_buf_size) default).lsn = some old →
        old ≠ lsn → lookupKey old s'.ordering = none)) := by
  constructor
  · exact next_none_unaligned
  · intro s lsn lid s' hord h
    obtain ⟨-, hpids, -, -, -, hl1, hf1, hpl1, hordn, hords⟩ := next_some s lsn lid s' h
    refine ⟨hpids, hl1, hf1, hpl1, ?_, ?_⟩
    · cases hc : (s.segments.getD (lid / s.config.io_buf_size) default).lsn with
      | none => rw [hordn hc]; exact lookup_insertKey_self _ _ _
      | some old => rw [hords old hc]; exact lookup_insertKey_self _ _ _
    · intro old hold hne
      rw [hords old hold, lookup_insertKey_ne lsn lid old _ hne]
      exact lookup_eraseKey_self old s.ordering hord

theorem c7_witness : lookupKey 20 sW7x.ordering = some 0 ∧ lookupKey 5 sW7x.ordering = none :=
  ⟨(c7_next.2 sW7 20 0 sW7x (by decide) (by decide)).2.2.2.2.1,
   (c7_next.2 sW7 20 0 sW7x (by decide) (by decide)).2.2.2.2.2 5 (by decide) (by decide)⟩

/-- C8 (confirmed). `segment_snapshot_iter_from(lsn)` yields exactly the
entries of `ordering` whose LSN is at least `lsn` rounded down to a segment
boundary, in strictly ascending LSN order. (The source clones `ordering`, so
the yielded sequence is a pure function of the call-time state; in this
sequential embedding the returned list is that snapshot.) -/
theorem c8_snapshot_iter (s : SA) (lsn : Nat) (hord : ordInv s) :
    (∀ l o, (l, o) ∈ segment_snapshot_iter_from s lsn ↔
      ((l, o) ∈ s.ordering ∧
        lsn / s.config.io_buf_size * s.config.io_buf_size ≤ l)) ∧
    List.Pairwise (fun a b : Nat × Nat => a.1 < b.1)
      (segment_snapshot_iter_from s lsn) := by
  constructor
  · intro l o
    simp only [segment_snapshot_iter_from]
    rw [List.mem_filter]
    simp
  · exact List.Pairwise.sublist (List.filter_sublist _) hord

theorem c8_witness :
    List.Pairwise (fun a b : Nat × Nat => a.1 < b.1)
      (segment_snapshot_iter_from sW8 27) :=
  (c8_snapshot_iter sW8 27 (by decide)).2

/-- C9 (corrected). The recovery scanner does not enqueue the tail segment
whenever it "contained no valid records": `empty_tip` is cleared by any
yielded record, valid or not. On `cfgC9` the tail's record stream holds only
a corrupted record — no valid record — yet the free list stays empty. -/
theorem c9_counterexample :
    lookupKey sW9.max_lsn sW9.ordering = some 0 ∧
    cfgC9.read_segment 0 = some tailC9 ∧
    hasValidRecord tailC9.records = false ∧
    tailC9.records ≠ [] ∧
    newSA cfgC9 = tailPhase sW9 ∧
    (newSA cfgC9).free = [] := by
  decide

/-- C9 (amended). The linear scan never touches the free list, and the tail
phase enqueues the tail offset exactly when the tail segment's record
iterator yields nothing at all (also when the re-read of the tail fails);
if it yields any record — valid or not — the offset is not enqueued. -/
theorem c9_tail_enqueue (s : SA) (mc : Nat)
    (hlk : lookupKey s.max_lsn s.ordering = some mc) :
    (∀ (fuel cursor : Nat) (s0 : SA), (scanLoop fuel cursor s0).free = s0.free) ∧
    (s.config.read_segment mc = none → (tailPhase s).free = s.free ++ [mc]) ∧
    (∀ seg, s.config.read_segment mc = some seg → seg.records = [] →
      (tailPhase s).free = s.free ++ [mc]) ∧
    (∀ seg, s.config.read_segment mc = some seg → seg.records ≠ [] →
      (tailPhase s).free = s.free) :=
  ⟨scanLoop_free, (tailPhase_cases s mc hlk).1, (tailPhase_cases s mc hlk).2.1,
    (tailPhase_cases s mc hlk).2.2⟩

theorem c9_witness : (tailPhase sW9).free = sW9.free :=
  (c9_tail_enqueue sW9 0 (by decide)).2.2.2 tailC9 (by decide) (by decide)

/-- C10 (confirmed). `freed` neither resizes the segments array nor adopts an
unset LSN: if any old offset's segment index is at or beyond the array length
or its record has no LSN, the call panics (modelled as `none`). By contrast
`merged` extends the array to `idx + 1` and adopts the incoming LSN. -/
theorem c10_freed_panics :
    (∀ (s : SA) (pid : Nat) (old_lids : List Nat) (lsn : Nat),
      (∃ lid ∈ old_lids, s.segments.length ≤ lid / s.config.io_buf_size ∨
        (s.segments.getD (lid / s.config.io_buf_size) default).lsn = none) →
      freed s pid old_lids lsn = none) ∧
    (∀ (s : SA) (pid lid lsn : Nat), s.segments.length ≤ lid / s.config.io_buf_size →
      (merged s pid lid lsn).segments.length = lid / s.config.io_buf_size + 1 ∧
      ((merged s pid lid lsn).segments.getD (lid / s.config.io_buf_size) default).lsn
        = some lsn) := by
  constructor
  · intro s pid ol lsn hex
    show freedLoop pid lsn (pcErased s pid) ol = none
    apply freedLoop_bad
    exact hex
  · intro s pid lid lsn hge
    have h0 : (resizeSegs s.segments (lid / s.config.io_buf_size)).getD
        (lid / s.config.io_buf_size) default = default := by
      rw [resize_getD]
      exact getD_of_ge _ _ _ hge
    simp only [merged, h0]
    rw [adoptLsn_none default lsn rfl]
    split
    · rename_i hlt
      exfalso
      simp at hlt
    · constructor
      · rw [List.length_set]
        exact resize_len_eq _ _ hge
      · rw [getD_set_self _ _ _ _ (resize_length_ge _ _)]

theorem c10_witness : freed (newSA cfgT) 1 [0] 5 = none :=
  c10_freed_panics.1 (newSA cfgT) 1 [0] 5 ⟨0, by decide, Or.inl (by decide)⟩

/-! ### Replay of the source's `basic_workflow` unit test, validating the
embedding: the final `clean` returns page 1 and the one after returns
nothing, exactly as the test asserts. -/

example : (run (newSA cfgT) opsBW).bind (fun s => (clean s).map Prod.fst) =
    some (some 1) := by decide

example : (run (newSA cfgT) (opsC2)).bind (fun s => (clean s).map Prod.fst) =
    some none := by decide

end SegAcc
